import Mathlib

/-!
Verification development for the media-transcoding pipeline of
agoodkind/instagram-recents-go.

The pipeline under scrutiny lives in src/mediaconversion.go (the draft the
repository's other drafts converge to: channel fan-in with atomic counters and
an iso8601-sorted manifest).  External effects (HTTP download, the imaging
library, the WebP encoder, the filesystem and the iso8601 timestamp parser)
are modelled as an explicit environment of oracles; the Go control flow is
translated statement by statement.  Go's runtime panic on an out-of-range
string slice is modelled by an outer Option layer (none = panic), and each
fmt.Errorf construction site becomes its own constructor of an error type, so
that error provenance is tracked the way distinct Go error values are.

The divergent dispatch strategies of the two coordinator drafts
(goroutine-per-item without any cap in src/mediaconversion.go, a semaphore
bounded to maxConcurrentMedia in src/mediacoversion.go) are modelled as two
small transition systems over per-item phases.
-/

namespace InstaRecents

/-- Media, from the API client (src/unnamed/part_003, type Media). -/
structure Media where
  id : String
  mediaType : String
  mediaURL : String
  permalink : String
  timestamp : String
  thumbnailURL : String
deriving Repr, DecidableEq

/-- MediaFileVersionEntry, src/mediaconversion.go lines 24-28. -/
structure MediaFileVersionEntry where
  fileName : String
  width : Nat
  height : Nat
deriving Repr, DecidableEq

/-- MediaFileEntry, src/mediaconversion.go lines 31-35.  The Go map
from size names to version entries is modelled as an association list
(insertion ordered, keys unique), written by Go-style map assignment. -/
structure MediaFileEntry where
  mediaID : String
  timestamp : String
  versions : List (String × MediaFileVersionEntry)
deriving Repr, DecidableEq

/-- One configured size, an element of the imageWidths table. -/
structure SizeSpec where
  width : Nat
  name : String
deriving Repr, DecidableEq

/-- imageWidths, src/mediaconversion.go lines 38-46. -/
def imageWidths : List SizeSpec :=
  [⟨1200, "large"⟩, ⟨800, "medium"⟩, ⟨400, "thumb"⟩, ⟨160, "small"⟩]

/-- One fmt.Errorf construction site per constructor: errors keep their
provenance, as distinct Go error values do. -/
inductive PErr where
  | noUrl (id : String)
  | mkdirFail (e : String)
  | downloadFail (e : String)
  | dimsFail (e : String)
  | resizeFail (e : String)
deriving Repr, DecidableEq

instance {ε α : Type} [DecidableEq ε] [DecidableEq α] : DecidableEq (Except ε α) := fun x y =>
  match x, y with
  | .error a, .error b =>
    if h : a = b then isTrue (by rw [h]) else isFalse (by intro hc; cases hc; exact h rfl)
  | .error _, .ok _ => isFalse (by intro hc; cases hc)
  | .ok _, .error _ => isFalse (by intro hc; cases hc)
  | .ok a, .ok b =>
    if h : a = b then isTrue (by rw [h]) else isFalse (by intro hc; cases hc; exact h rfl)

/-- The external world: filesystem, HTTP, the imaging and WebP libraries and
the iso8601 parser, each consumed but not implemented by the pipeline. -/
structure Env where
  mkdirAll : String → Except String Unit
  download : String → String → Except String Unit
  openImage : String → Except String (Nat × Nat)
  resizeDy : Nat × Nat → Nat → Nat → Nat
  createFile : String → Except String Unit
  encoderOptions : Except String Unit
  encode : String → Except String Unit
  parseTS : String → Option Int

/-! ### Go string and path primitives used by the pipeline -/

/-- strings.Contains: substring containment (char-level; the patterns used by
the code are ASCII, for which byte- and char-level containment agree). -/
def goContains (s sub : String) : Bool := decide (sub.data <:+: s.data)

/-- strings.HasSuffix. -/
def goHasSuffix (s suf : String) : Bool := decide (suf.data <:+ s.data)

/-- strings.LastIndex(s, ".") specialised to the one-character pattern the
code uses: index of the last dot, -1 when there is none. -/
def goLastIndexDot (s : String) : Int :=
  match s.data.reverse.findIdx? (fun c => c == '.') with
  | none => -1
  | some i => (s.data.length : Int) - 1 - (i : Int)

/-- The Go slice expression s[i:]: defined for 0 ≤ i ≤ len(s), a runtime
panic (modelled as none) otherwise. -/
def goSliceFrom (s : String) (i : Int) : Option String :=
  if 0 ≤ i ∧ i ≤ (s.data.length : Int) then some (String.mk (s.data.drop i.toNat))
  else none

/-- filepath.Join for a directory and a relative name. -/
def pathJoin (a b : String) : String := a ++ "/" ++ b

/-- filepath.Base: the part after the last path separator. -/
def baseName (p : String) : String :=
  String.mk ((p.data.reverse.takeWhile (fun c => c ≠ '/')).reverse)

/-- filepath.Dir: the part before the last path separator. -/
def dirName (p : String) : String :=
  String.mk (((p.data.reverse.dropWhile (fun c => c ≠ '/')).drop 1).reverse)

/-- filepath.Ext: the suffix of the final path element starting at its last
dot, empty when the element has no dot. -/
def extName (p : String) : String :=
  let b := (baseName p).data
  if b.contains '.' then
    String.mk ('.' :: (b.reverse.takeWhile (fun c => c ≠ '.')).reverse)
  else ""

/-- strings.TrimSuffix. -/
def trimSuffix (s suf : String) : String :=
  if suf.data.isSuffixOf s.data then
    String.mk (s.data.take (s.data.length - suf.data.length))
  else s

/-! ### The item processor, src/mediaconversion.go -/

/-- ResizeRes, src/mediaconversion.go lines 97-101. -/
structure ResizeRes where
  height : Nat
  fileName : String
  error : Option String
deriving Repr, DecidableEq

/-- ResizeByWidthWebP, src/mediaconversion.go lines 103-148.  The resized
height is the codec's, supplied by the environment from the source bounds and
the requested dimensions. -/
def ResizeByWidthWebP (env : Env) (srcPath : String) (width height : Nat) : ResizeRes :=
  let srcFileName := baseName srcPath
  let srcFileDir := dirName srcPath
  let srcFileNameWithoutExt := trimSuffix srcFileName (extName srcPath)
  match env.openImage srcPath with
  | .error e => ⟨0, "", some ("failed to open image: " ++ e)⟩
  | .ok dims =>
    let actualHeight :=
      if height == 0 then env.resizeDy dims width 0
      else if width == 0 then env.resizeDy dims 0 height
      else env.resizeDy dims width height
    let destFileName :=
      srcFileNameWithoutExt ++ "_" ++ Nat.repr width ++ "x" ++ Nat.repr actualHeight ++ ".webp"
    let destPath := pathJoin srcFileDir destFileName
    match env.createFile destPath with
    | .error e => ⟨0, "", some ("failed to create output file: " ++ e)⟩
    | .ok _ =>
      match env.encoderOptions with
      | .error e => ⟨0, "", some ("failed to create encoder options: " ++ e)⟩
      | .ok _ =>
        match env.encode destPath with
        | .error e => ⟨actualHeight, destPath, some ("failed to encode to WebP: " ++ e)⟩
        | .ok _ => ⟨actualHeight, destFileName, none⟩

/-- The per-size loop of ProcessImage, src/mediaconversion.go lines 199-216:
the first failing size aborts the whole item. -/
def processSizes (env : Env) (originalPath : String) :
    List SizeSpec → List MediaFileVersionEntry → Except PErr (List MediaFileVersionEntry)
  | [], versions => .ok versions
  | size :: rest, versions =>
    let res := ResizeByWidthWebP env originalPath size.width 0
    match res.error with
    | some e => .error (.resizeFail ("failed to resize and convert to WebP: " ++ e))
    | none => processSizes env originalPath rest (versions ++ [⟨res.fileName, size.width, res.height⟩])

/-- ProcessImage, src/mediaconversion.go lines 167-219.  The extension is
taken by the slice expression url[strings.LastIndex(url, "."):]; a URL with
no dot makes that slice panic, hence the outer Option. -/
def ProcessImage (env : Env) (url mediaID mediaDir : String) :
    Option (Except PErr (List MediaFileVersionEntry)) :=
  match goSliceFrom url (goLastIndexDot url) with
  | none => none
  | some fileExt => some (
      match env.mkdirAll mediaDir with
      | .error e => .error (.mkdirFail e)
      | .ok _ =>
        let originalPath := pathJoin mediaDir (mediaID ++ fileExt)
        match env.download url originalPath with
        | .error e => .error (.downloadFail ("download failed: " ++ e))
        | .ok _ =>
          match env.openImage originalPath with
          | .error e => .error (.dimsFail ("failed to open image: " ++ e))
          | .ok dims =>
            processSizes env originalPath imageWidths [⟨mediaID ++ fileExt, dims.1, dims.2⟩])

/-- The URL selection of ProcessMedia, src/mediaconversion.go lines 224-233:
thumbnail first, media URL second, none when both are empty. -/
def selectUrl (media : Media) : Option String :=
  if media.thumbnailURL ≠ "" then some media.thumbnailURL
  else if media.mediaURL ≠ "" then some media.mediaURL
  else none

/-- ProcessMedia, src/mediaconversion.go lines 222-248.  Go's (nil, nil)
return for non-image media is the inner Option's none (a skip); errors carry
their construction site. -/
def ProcessMedia (env : Env) (media : Media) (mediaDir : String) :
    Option (Except PErr (Option (List MediaFileVersionEntry))) :=
  match selectUrl media with
  | none => some (.error (.noUrl media.id))
  | some url =>
    if goContains url ".mp4" then some (.ok none)
    else
      match ProcessImage env url media.id mediaDir with
      | none => none
      | some (.error e) => some (.error e)
      | some (.ok files) => some (.ok (some files))

/-! ### The coordinator, src/mediaconversion.go lines 251-336 -/

/-- Go map assignment m[k] = v on the association-list model: replace the
binding in place when the key is present, append otherwise. -/
def upsert (m : List (String × MediaFileVersionEntry)) (k : String)
    (v : MediaFileVersionEntry) : List (String × MediaFileVersionEntry) :=
  if m.any (fun p => p.1 == k) then
    m.map (fun p => if p.1 == k then (k, v) else p)
  else m ++ [(k, v)]

/-- The inner size-name search of the versionMap loop, src/mediaconversion.go
lines 284-289: the first configured size of equal width, if any. -/
def findSizeName (w : Nat) : Option String :=
  (imageWidths.find? (fun s => s.width == w)).map (fun s => s.name)

/-- The versionMap construction, src/mediaconversion.go lines 281-290:
every produced file whose width equals a configured width is written under
that size's name; files matching no configured width are dropped. -/
def buildVersionMap (files : List MediaFileVersionEntry) :
    List (String × MediaFileVersionEntry) :=
  files.foldl (fun m file =>
    match findSizeName file.width with
    | some name => upsert m name file
    | none => m) []

/-- The aggregate a run produces: collected manifest entries plus the two
counters the coordinator keeps (atomic in the source). -/
structure BatchResult where
  entries : List MediaFileEntry
  processed : Nat
  skipped : Nat
deriving Repr, DecidableEq

/-- One item's contribution to the aggregate, src/mediaconversion.go lines
265-298: an error leaves the aggregate untouched, a (nil, nil) result bumps
the skip counter, a produced file list becomes a manifest entry and bumps the
processed counter.  A panic inside the goroutine (none) crashes the run. -/
def processOne (env : Env) (mediaDir : String) (acc : BatchResult) (media : Media) :
    Option BatchResult :=
  match ProcessMedia env media mediaDir with
  | none => none
  | some (.error _) => some acc
  | some (.ok none) => some { acc with skipped := acc.skipped + 1 }
  | some (.ok (some files)) =>
    some { acc with
      entries := acc.entries ++ [⟨media.id, media.timestamp, buildVersionMap files⟩],
      processed := acc.processed + 1 }

/-- The manifest comparator, src/mediaconversion.go lines 314-327: it returns
false whenever either side's timestamp fails to parse (lines 318-319 and
321-324 both return false), and otherwise orders by time descending.  Note
this differs from the comparator of SortMediaByTimestamp (lines 48-66, never
applied to the manifest), whose second failure branch returns true.  Because
an unparsable entry is less than nothing and nothing is less than it while
parsable entries still compare to each other, this comparator is not a
strict weak ordering. -/
def tsLess (env : Env) (a b : MediaFileEntry) : Bool :=
  match env.parseTS a.timestamp with
  | none => false
  | some ta =>
    match env.parseTS b.timestamp with
    | none => false
    | some tb => decide (tb < ta)

/-- The inner swap loop of Go's insertion sort: the new element starts at the
right end of the placed prefix and swaps left while less than its left
neighbour.  rev is the placed prefix with its rightmost element first. -/
def insertFromRight {α : Type} (less : α → α → Bool) (x : α) : List α → List α
  | [] => [x]
  | y :: rest => if less x y then y :: insertFromRight less x rest else x :: y :: rest

/-- The outer loop of Go's insertion sort over the remaining elements. -/
def goInsertionSortAux {α : Type} (less : α → α → Bool) :
    List α → List α → List α
  | rev, [] => rev.reverse
  | rev, x :: xs => goInsertionSortAux less (insertFromRight less x rev) xs

/-- The insertion sort that sort.Slice's pdqsort executes for slices shorter
than twelve elements, embedded call by call.  The manifest comparator is not
a strict weak ordering, so Go's sort carries no order-theoretic
specification for it and the executed algorithm itself is the only faithful
model; the counterexample batches below are in this short-slice regime. -/
def goSortSlice {α : Type} (less : α → α → Bool) (l : List α) : List α :=
  goInsertionSortAux less [] l

/-- The coordinator's sort of the collected manifest entries,
src/mediaconversion.go lines 313-327. -/
def sortEntries (env : Env) (l : List MediaFileEntry) : List MediaFileEntry :=
  goSortSlice (tsLess env) l

/-- The fan-out/fan-in over all items.  Concurrent execution delivers results
in a scheduler-dependent order; counts, outcome per item and the sorted
manifest are order-insensitive, so the fold sequentialises dispatch order. -/
def runItems (env : Env) (mediaDir : String) (items : List Media) : Option BatchResult :=
  items.foldlM (fun acc m => processOne env mediaDir acc m) ⟨[], 0, 0⟩

/-- FetchAndTransformMedia, src/mediaconversion.go lines 251-336: directory
creation failure returns early; otherwise every item reports an outcome, the
entries are sorted and handed to the manifest writer together with the
counters.  none = a goroutine panicked and the run crashed. -/
def FetchAndTransformMedia (env : Env) (recentMedia : List Media) (mediaDir outputDir : String) :
    Option (Except PErr BatchResult) :=
  match env.mkdirAll mediaDir with
  | .error e => some (.error (.mkdirFail e))
  | .ok _ =>
    match runItems env mediaDir recentMedia with
    | none => none
    | some r => some (.ok { r with entries := sortEntries env r.entries })

/-- The spec's per-item outcome classification (Processed / Skipped / Failed)
read off ProcessMedia's result; none when the item panics. -/
inductive Outcome where
  | failed
  | skippedOut
  | processedOut
deriving Repr, DecidableEq

/-- Which outcome a single item reports. -/
def itemOutcome (env : Env) (mediaDir : String) (media : Media) : Option Outcome :=
  match ProcessMedia env media mediaDir with
  | none => none
  | some (.error _) => some .failed
  | some (.ok none) => some .skippedOut
  | some (.ok (some _)) => some .processedOut

/-- How many items of the batch report a given outcome. -/
def countOutcome (env : Env) (mediaDir : String) (items : List Media) (o : Outcome) : Nat :=
  items.countP (fun m => decide (itemOutcome env mediaDir m = some o))

/-! ### Dispatch models of the two coordinator drafts

An item is pending until its goroutine calls ProcessMedia, running while that
call is mid-processing, and done afterwards.  The channel-based coordinator
(src/mediaconversion.go lines 263-299) launches one goroutine per item with
no admission control, so any pending item may start at any time; the
semaphore-based draft (src/mediacoversion.go lines 360-384) makes each
goroutine acquire one of maxConcurrentMedia slots before processing. -/

inductive ItemPhase where
  | pending
  | running
  | done
deriving Repr, DecidableEq

/-- How many items are mid-processing in a schedule state. -/
def countRunning (l : List ItemPhase) : Nat :=
  l.countP (fun p => p == ItemPhase.running)

/-- A scheduler step of the uncapped coordinator of src/mediaconversion.go:
any pending goroutine may enter ProcessMedia, any running one may finish. -/
inductive UnboundedStep : List ItemPhase → List ItemPhase → Prop where
  | start (pre post : List ItemPhase) :
      UnboundedStep (pre ++ ItemPhase.pending :: post) (pre ++ ItemPhase.running :: post)
  | finish (pre post : List ItemPhase) :
      UnboundedStep (pre ++ ItemPhase.running :: post) (pre ++ ItemPhase.done :: post)

/-- Reachability under the uncapped dispatch. -/
inductive UnboundedReach : List ItemPhase → List ItemPhase → Prop where
  | refl (s : List ItemPhase) : UnboundedReach s s
  | step {s t u : List ItemPhase} :
      UnboundedReach s t → UnboundedStep t u → UnboundedReach s u

/-- maxConcurrentMedia, src/mediacoversion.go line 55. -/
def maxConcurrentMedia : Nat := 3

/-- A scheduler step of the semaphore-bounded coordinator draft of
src/mediacoversion.go: a pending goroutine enters processing only when fewer
than maxConcurrentMedia items are mid-processing. -/
inductive BoundedStep : List ItemPhase → List ItemPhase → Prop where
  | start (pre post : List ItemPhase) :
      countRunning (pre ++ ItemPhase.pending :: post) < maxConcurrentMedia →
      BoundedStep (pre ++ ItemPhase.pending :: post) (pre ++ ItemPhase.running :: post)
  | finish (pre post : List ItemPhase) :
      BoundedStep (pre ++ ItemPhase.running :: post) (pre ++ ItemPhase.done :: post)

/-- Reachability under the semaphore-bounded dispatch. -/
inductive BoundedReach : List ItemPhase → List ItemPhase → Prop where
  | refl (s : List ItemPhase) : BoundedReach s s
  | step {s t u : List ItemPhase} :
      BoundedReach s t → BoundedStep t u → BoundedReach s u

/-- The filename shape src/mediaconversion.go line 127 produces for a variant
(the source file name without extension is the media id, see the
characterisation theorem). -/
def variantFileName (id : String) (w h : Nat) : String :=
  id ++ "_" ++ Nat.repr w ++ "x" ++ Nat.repr h ++ ".webp"

/-! ### Concrete instances used to witness the theorems -/

/-- A benign environment: every external call succeeds, images decode to
1000x750, the codec derives heights by aspect ratio, and the iso8601 parser
accepts exactly the two tokens TS-NEW and TS-OLD. -/
def okEnv : Env where
  mkdirAll := fun _ => .ok ()
  download := fun _ _ => .ok ()
  openImage := fun _ => .ok (1000, 750)
  resizeDy := fun dims w h => if h == 0 then w * dims.2 / dims.1 else h
  createFile := fun _ => .ok ()
  encoderOptions := .ok ()
  encode := fun _ => .ok ()
  parseTS := fun s => if s = "TS-NEW" then some 2 else if s = "TS-OLD" then some 1 else none

/-- okEnv with a failing WebP encoder configuration: every variant encode
fails. -/
def encFailEnv : Env := { okEnv with encoderOptions := .error "no encoder" }

/-- okEnv where every image decodes to 400x300, so the original's intrinsic
width coincides with the configured width of the thumb variant. -/
def env400 : Env := { okEnv with openImage := fun _ => .ok (400, 300) }

def mImg : Media := ⟨"mi", "IMAGE", "http://h/a.jpg", "p", "TS-OLD", ""⟩

def mNew : Media := ⟨"mn2", "IMAGE", "http://h/b.jpg", "p", "TS-NEW", ""⟩

def mBogus1 : Media := ⟨"mb1", "IMAGE", "http://h/c.jpg", "p", "oops", ""⟩

def mBogus2 : Media := ⟨"mb2", "IMAGE", "http://h/d.jpg", "p", "nope", ""⟩

def mVid : Media := ⟨"mv4", "VIDEO", "http://h/c.mp4", "p", "TS-OLD", ""⟩

def mNoUrl : Media := ⟨"mn0", "IMAGE", "", "p", "TS-OLD", ""⟩

def mThumb : Media := ⟨"mt", "IMAGE", "", "p", "TS-OLD", "http://h/t.jpg"⟩

def mMp4InPath : Media := ⟨"mq", "IMAGE", "http://h/v.mp4/img.jpg", "p", "TS-OLD", ""⟩

def mMov : Media := ⟨"mm", "VIDEO", "http://h/clip.mov", "p", "TS-OLD", ""⟩

def mDotless : Media := ⟨"mx", "IMAGE", "http://nodot-host/img", "p", "TS-OLD", ""⟩

def accEx : BatchResult := ⟨[], 5, 7⟩

/-- The manifest entry okEnv produces for a processed item. -/
def sampleEntry (id ts : String) : MediaFileEntry :=
  ⟨id, ts, [("large", ⟨id ++ "_1200x900.webp", 1200, 900⟩),
            ("medium", ⟨id ++ "_800x600.webp", 800, 600⟩),
            ("thumb", ⟨id ++ "_400x300.webp", 400, 300⟩),
            ("small", ⟨id ++ "_160x120.webp", 160, 120⟩)]⟩

/-- A batch whose first collected entry has an unparsable timestamp. -/
def itemsC1x : List Media := [mBogus1, mNew, mImg]

/-- The batch result of running okEnv over itemsC1x: the unparsable entry
stays first, ahead of both valid-timestamp entries. -/
def rC1x : BatchResult :=
  ⟨[sampleEntry "mb1" "oops", sampleEntry "mn2" "TS-NEW",
    sampleEntry "mi" "TS-OLD"], 3, 0⟩

def itemsC5 : List Media := [mImg, mVid, mNoUrl]

/-- The batch result of running okEnv over itemsC5. -/
def rC5 : BatchResult := ⟨[sampleEntry "mi" "TS-OLD"], 1, 1⟩

/-- The files env400 produces for mImg: the original decodes at width 400,
matching the configured thumb width. -/
def filesEx : List MediaFileVersionEntry :=
  [⟨"mi.jpg", 400, 300⟩,
   ⟨"mi_1200x900.webp", 1200, 900⟩,
   ⟨"mi_800x600.webp", 800, 600⟩,
   ⟨"mi_400x300.webp", 400, 300⟩,
   ⟨"mi_160x120.webp", 160, 120⟩]

/-- The files okEnv produces for mMov (a .mov URL is processed as an image:
C10). -/
def filesMov : List MediaFileVersionEntry :=
  [⟨"mm.mov", 1000, 750⟩,
   ⟨"mm_1200x900.webp", 1200, 900⟩,
   ⟨"mm_800x600.webp", 800, 600⟩,
   ⟨"mm_400x300.webp", 400, 300⟩,
   ⟨"mm_160x120.webp", 160, 120⟩]

/-! ### Helper lemmas -/

theorem processSizes_error_shape (env : Env) (p : String) :
    ∀ (sizes : List SizeSpec) (acc : List MediaFileVersionEntry) (e : PErr),
      processSizes env p sizes acc = .error e → ∃ s, e = PErr.resizeFail s := by
  intro sizes
  induction sizes with
  | nil => intro acc e h; simp [processSizes] at h
  | cons size rest ih =>
    intro acc e h
    simp only [processSizes] at h
    cases herr : (ResizeByWidthWebP env p size.width 0).error with
    | some msg =>
      simp only [herr, Except.error.injEq] at h
      exact ⟨_, h.symm⟩
    | none =>
      simp only [herr] at h
      exact ih _ _ h

theorem processImage_ne_noUrl (env : Env) (url id dir x : String) :
    ProcessImage env url id dir ≠ some (.error (.noUrl x)) := by
  intro h
  cases hs : goSliceFrom url (goLastIndexDot url) with
  | none => simp only [ProcessImage, hs] at h; exact Option.noConfusion h
  | some fe =>
    simp only [ProcessImage, hs, Option.some.injEq] at h
    cases hm : env.mkdirAll dir with
    | error s => simp only [hm] at h; exact PErr.noConfusion (Except.error.inj h)
    | ok u =>
      simp only [hm] at h
      cases hd : env.download url (pathJoin dir (id ++ fe)) with
      | error s => simp only [hd] at h; exact PErr.noConfusion (Except.error.inj h)
      | ok u2 =>
        simp only [hd] at h
        cases ho : env.openImage (pathJoin dir (id ++ fe)) with
        | error s => simp only [ho] at h; exact PErr.noConfusion (Except.error.inj h)
        | ok dims =>
          simp only [ho] at h
          obtain ⟨s, hs2⟩ := processSizes_error_shape env _ _ _ _ h
          exact PErr.noConfusion hs2

theorem runItems_none_of_mem (env : Env) (dir : String) (media : Media)
    (hpanic : ProcessMedia env media dir = none) :
    ∀ (items : List Media) (acc : BatchResult), media ∈ items →
      List.foldlM (fun a m => processOne env dir a m) acc items = none := by
  intro items
  induction items with
  | nil => intro acc h; cases h
  | cons hd tl ih =>
    intro acc hmem
    rw [List.foldlM_cons]
    rcases List.mem_cons.mp hmem with heq | htl
    · subst heq
      have hnone : processOne env dir acc media = none := by
        simp only [processOne, hpanic]
      rw [hnone]
      rfl
    · cases hpo : processOne env dir acc hd with
      | none => rfl
      | some acc2 => simpa using ih acc2 htl

/-! ### C4: URL selection and the no-URL failure -/

/-- C4: the item processor prefers a non-empty thumbnail URL, falls back to a
non-empty media URL, and yields the no-URL error exactly when both are empty;
that failure leaves the batch aggregate untouched (non-fatal). -/
theorem c4_url_selection (env : Env) (media : Media) (dir : String) (acc : BatchResult) :
    (media.thumbnailURL ≠ "" → selectUrl media = some media.thumbnailURL)
    ∧ (media.thumbnailURL = "" → media.mediaURL ≠ "" → selectUrl media = some media.mediaURL)
    ∧ (ProcessMedia env media dir = some (.error (.noUrl media.id)) ↔
        media.thumbnailURL = "" ∧ media.mediaURL = "")
    ∧ (media.thumbnailURL = "" → media.mediaURL = "" → processOne env dir acc media = some acc) := by
  refine ⟨fun h1 => by simp [selectUrl, h1], fun h1 h2 => by simp [selectUrl, h1, h2], ?_, ?_⟩
  · constructor
    · intro h
      cases hsel : selectUrl media with
      | none =>
        rw [selectUrl] at hsel
        constructor
        · by_contra hc
          rw [if_pos hc] at hsel
          exact Option.noConfusion hsel
        · by_contra hc
          by_cases ht : media.thumbnailURL ≠ ""
          · rw [if_pos ht] at hsel; exact Option.noConfusion hsel
          · rw [if_neg ht, if_pos hc] at hsel; exact Option.noConfusion hsel
      | some url =>
        exfalso
        simp only [ProcessMedia, hsel] at h
        by_cases hc : goContains url ".mp4" = true
        · rw [if_pos hc] at h
          simp at h
        · rw [if_neg hc] at h
          cases hpi : ProcessImage env url media.id dir with
          | none => simp only [hpi] at h; exact Option.noConfusion h
          | some r =>
            cases r with
            | error e =>
              simp only [hpi, Option.some.injEq, Except.error.injEq] at h
              rw [h] at hpi
              exact absurd hpi (processImage_ne_noUrl env url media.id dir media.id)
            | ok files =>
              simp only [hpi] at h
              simp at h
    · rintro ⟨h1, h2⟩
      have hsel : selectUrl media = none := by simp [selectUrl, h1, h2]
      simp only [ProcessMedia, hsel]
  · intro h1 h2
    have hsel : selectUrl media = none := by simp [selectUrl, h1, h2]
    simp only [processOne, ProcessMedia, hsel]

/-- Witness for C4 at concrete inputs: a non-empty thumbnail is selected, and
an item with neither URL leaves the aggregate unchanged. -/
theorem c4_url_selection_witness :
    selectUrl mThumb = some "http://h/t.jpg"
    ∧ processOne okEnv "md" accEx mNoUrl = some accEx :=
  ⟨(c4_url_selection okEnv mThumb "md" accEx).1 (by decide),
   (c4_url_selection okEnv mNoUrl "md" accEx).2.2.2 (by decide) (by decide)⟩

/-! ### C10: classification is a .mp4 substring test on the selected URL -/

/-- C10: an item is skipped as non-image exactly when the string .mp4 occurs
anywhere in its selected URL; a URL with an image extension but .mp4 in its
path is skipped, while a .mov video URL is processed as an image. -/
theorem c10_skip_iff_mp4_substring :
    (∀ (env : Env) (media : Media) (dir url : String), selectUrl media = some url →
      (ProcessMedia env media dir = some (.ok none) ↔ goContains url ".mp4" = true))
    ∧ ProcessMedia okEnv mMp4InPath "md" = some (.ok none)
    ∧ goHasSuffix mMp4InPath.mediaURL ".jpg" = true
    ∧ ProcessMedia okEnv mMov "md" = some (.ok (some filesMov))
    ∧ goHasSuffix mMov.mediaURL ".mov" = true := by
  refine ⟨?_, by decide, by decide, by decide, by decide⟩
  intro env media dir url hsel
  constructor
  · intro h
    simp only [ProcessMedia, hsel] at h
    by_cases hc : goContains url ".mp4" = true
    · exact hc
    · exfalso
      rw [if_neg hc] at h
      cases hpi : ProcessImage env url media.id dir with
      | none => simp only [hpi] at h; exact Option.noConfusion h
      | some r =>
        cases r with
        | error e => simp only [hpi] at h; simp at h
        | ok files => simp only [hpi] at h; simp at h
  · intro hc
    simp only [ProcessMedia, hsel, if_pos hc]

/-- Witness for C10: the general equivalence applied at the concrete item
whose image-extension URL has .mp4 in its path. -/
theorem c10_skip_iff_mp4_substring_witness :
    ProcessMedia okEnv mMp4InPath "md" = some (.ok none) :=
  (c10_skip_iff_mp4_substring.1 okEnv mMp4InPath "md" "http://h/v.mp4/img.jpg"
    (by decide)).mpr (by decide)

/-! ### C6: a video-extension URL yields the Skipped outcome -/

/-- C6: an item whose selected URL ends in the video container extension .mp4
reports the Skipped outcome: it contributes no manifest entry, bumps the skip
counter by exactly one and leaves the processed count (and, being no error,
the set of failures) unchanged. -/
theorem c6_video_extension_skipped (env : Env) (media : Media) (dir url : String)
    (acc : BatchResult)
    (hsel : selectUrl media = some url)
    (hsuf : goHasSuffix url ".mp4" = true) :
    itemOutcome env dir media = some Outcome.skippedOut
    ∧ processOne env dir acc media = some ⟨acc.entries, acc.processed, acc.skipped + 1⟩ := by
  have hcont : goContains url ".mp4" = true := by
    have hs : (".mp4" : String).data <:+ url.data := of_decide_eq_true hsuf
    exact decide_eq_true hs.isInfix
  have hskip : ProcessMedia env media dir = some (.ok none) := by
    simp only [ProcessMedia, hsel, if_pos hcont]
  exact ⟨by simp only [itemOutcome, hskip], by simp only [processOne, hskip]⟩

/-- Witness for C6 at the concrete .mp4 item. -/
theorem c6_video_extension_skipped_witness :
    itemOutcome okEnv "md" mVid = some Outcome.skippedOut
    ∧ processOne okEnv "md" accEx mVid = some ⟨accEx.entries, accEx.processed, accEx.skipped + 1⟩ :=
  c6_video_extension_skipped okEnv mVid "md" "http://h/c.mp4" accEx (by decide) (by decide)

/-! ### C8: a dotless URL panics instead of failing the item -/

/-- C8: for a selected URL containing no dot (and not skipped as .mp4), the
extension slice url[strings.LastIndex(url, "."):] is out of range: the item
panics rather than reporting a Failed outcome, and the whole run crashes. -/
theorem c8_dotless_url_panics (env : Env) (media : Media) (dir outDir url : String)
    (items : List Media)
    (hsel : selectUrl media = some url)
    (hmp4 : goContains url ".mp4" = false)
    (hnodot : ∀ c ∈ url.data, c ≠ '.')
    (hmem : media ∈ items)
    (hmk : env.mkdirAll dir = .ok ()) :
    ProcessMedia env media dir = none
    ∧ itemOutcome env dir media ≠ some Outcome.failed
    ∧ FetchAndTransformMedia env items dir outDir = none := by
  have hidx : goLastIndexDot url = -1 := by
    rw [goLastIndexDot]
    have : url.data.reverse.findIdx? (fun c => c == '.') = none := by
      rw [List.findIdx?_eq_none_iff]
      intro x hx
      exact beq_eq_false_iff_ne.mpr (hnodot x (List.mem_reverse.mp hx))
    rw [this]
  have hslice : goSliceFrom url (goLastIndexDot url) = none := by
    rw [hidx, goSliceFrom, if_neg]
    rintro ⟨hge, _⟩
    omega
  have hpi : ProcessImage env url media.id dir = none := by
    simp only [ProcessImage, hslice]
  have hcond : ¬goContains url ".mp4" = true := by
    rw [hmp4]; exact Bool.false_ne_true
  have hpm : ProcessMedia env media dir = none := by
    simp only [ProcessMedia, hsel, if_neg hcond, hpi]
  refine ⟨hpm, by simp [itemOutcome, hpm], ?_⟩
  have hri : runItems env dir items = none := by
    rw [runItems]
    exact runItems_none_of_mem env dir media hpm items ⟨[], 0, 0⟩ hmem
  simp only [FetchAndTransformMedia, hmk, hri]

/-- Witness for C8: the concrete dotless-URL item crashes the concrete run. -/
theorem c8_dotless_url_panics_witness :
    FetchAndTransformMedia okEnv [mDotless] "md" "od" = none :=
  (c8_dotless_url_panics okEnv mDotless "md" "od" "http://nodot-host/img" [mDotless]
    (by decide) (by decide) (by decide) (List.mem_singleton.mpr rfl) rfl).2.2

/-! ### The executed sort: permutation and adjacent non-inversion -/

theorem insertFromRight_perm {α : Type} (less : α → α → Bool) (x : α) :
    ∀ rev : List α, (insertFromRight less x rev).Perm (x :: rev) := by
  intro rev
  induction rev with
  | nil => exact List.Perm.refl _
  | cons y rest ih =>
    by_cases h : less x y = true
    · simp only [insertFromRight, if_pos h]
      exact (ih.cons y).trans (List.Perm.swap x y rest)
    · simp only [insertFromRight, if_neg h]
      exact List.Perm.refl _

theorem goInsertionSortAux_perm {α : Type} (less : α → α → Bool) :
    ∀ (xs rev : List α), (goInsertionSortAux less rev xs).Perm (rev.reverse ++ xs) := by
  intro xs
  induction xs with
  | nil => intro rev; simp [goInsertionSortAux]
  | cons x xs ih =>
    intro rev
    refine (ih (insertFromRight less x rev)).trans ?_
    refine ((List.reverse_perm _).append_right xs).trans ?_
    refine ((insertFromRight_perm less x rev).append_right xs).trans ?_
    refine (((List.reverse_perm rev).symm.append_right xs).cons x).trans ?_
    exact List.perm_middle.symm

theorem goSortSlice_perm {α : Type} (less : α → α → Bool) (l : List α) :
    (goSortSlice less l).Perm l := by
  simpa using goInsertionSortAux_perm less l []

theorem insertFromRight_chain {α : Type} (less : α → α → Bool)
    (hasym : ∀ a b, less a b = true → less b a = false) (x : α) :
    ∀ rev : List α, List.Chain' (fun a b => less a b = false) rev →
      List.Chain' (fun a b => less a b = false) (insertFromRight less x rev)
      ∧ ∀ z, (insertFromRight less x rev).head? = some z →
          z = x ∨ rev.head? = some z := by
  intro rev
  induction rev with
  | nil =>
    intro _
    constructor
    · simp [insertFromRight]
    · intro z hz
      simp only [insertFromRight, List.head?_cons, Option.some.injEq] at hz
      exact Or.inl hz.symm
  | cons y rest ih =>
    intro hch
    have hch2 : List.Chain' (fun a b => less a b = false) rest := hch.tail
    obtain ⟨ihc, ihh⟩ := ih hch2
    by_cases h : less x y = true
    · constructor
      · simp only [insertFromRight, if_pos h]
        rw [List.chain'_cons']
        refine ⟨?_, ihc⟩
        intro z hz
        rcases ihh z hz with hzx | hz2
        · rw [hzx]
          exact hasym x y h
        · rcases rest with _ | ⟨w, rest2⟩
          · exact absurd hz2 (by simp)
          · simp only [List.head?_cons, Option.some.injEq] at hz2
            subst hz2
            exact List.chain'_cons.mp hch |>.1
      · intro z hz
        simp only [insertFromRight, if_pos h, List.head?_cons, Option.some.injEq] at hz
        exact Or.inr (by simp [hz])
    · constructor
      · simp only [insertFromRight, if_neg h]
        rw [List.chain'_cons]
        exact ⟨by simpa using h, hch⟩
      · intro z hz
        simp only [insertFromRight, if_neg h, List.head?_cons, Option.some.injEq] at hz
        exact Or.inl hz.symm

theorem goInsertionSortAux_chain {α : Type} (less : α → α → Bool)
    (hasym : ∀ a b, less a b = true → less b a = false) :
    ∀ (xs rev : List α), List.Chain' (fun a b => less a b = false) rev →
      List.Chain' (fun a b => less b a = false) (goInsertionSortAux less rev xs) := by
  intro xs
  induction xs with
  | nil =>
    intro rev hch
    simp only [goInsertionSortAux]
    rw [List.chain'_reverse]
    exact hch
  | cons x xs ih =>
    intro rev hch
    exact ih _ (insertFromRight_chain less hasym x rev hch).1

/-- In the sorted output, no adjacent pair is inverted under the comparator
(this is all the executed insertion sort guarantees for an asymmetric
comparator that is not a strict weak ordering). -/
theorem goSortSlice_chain {α : Type} (less : α → α → Bool)
    (hasym : ∀ a b, less a b = true → less b a = false) (l : List α) :
    List.Chain' (fun a b => less b a = false) (goSortSlice less l) :=
  goInsertionSortAux_chain less hasym l [] (by simp)

/-! ### C5: outcome partition and manifest size -/

theorem countOutcome_cons (env : Env) (dir : String) (hd : Media) (tl : List Media)
    (o : Outcome) :
    countOutcome env dir (hd :: tl) o =
      countOutcome env dir tl o + (if itemOutcome env dir hd = some o then 1 else 0) := by
  simp [countOutcome, List.countP_cons]

theorem runItems_invariant (env : Env) (dir : String) :
    ∀ (items : List Media) (acc r : BatchResult),
      List.foldlM (fun a m => processOne env dir a m) acc items = some r →
      r.processed = acc.processed + countOutcome env dir items .processedOut
      ∧ r.skipped = acc.skipped + countOutcome env dir items .skippedOut
      ∧ r.entries.length = acc.entries.length + countOutcome env dir items .processedOut
      ∧ ∀ m ∈ items, itemOutcome env dir m ≠ none := by
  intro items
  induction items with
  | nil =>
    intro acc r h
    simp only [List.foldlM_nil] at h
    cases h
    simp [countOutcome]
  | cons hd tl ih =>
    intro acc r h
    rw [List.foldlM_cons] at h
    cases hpo : processOne env dir acc hd with
    | none => rw [hpo] at h; exact absurd h (by simp)
    | some acc1 =>
      rw [hpo] at h
      have hrest : List.foldlM (fun a m => processOne env dir a m) acc1 tl = some r := by
        simpa using h
      obtain ⟨ihp, ihs, ihe, ihm⟩ := ih acc1 r hrest
      cases hpm : ProcessMedia env hd dir with
      | none =>
        have : processOne env dir acc hd = none := by simp only [processOne, hpm]
        rw [this] at hpo
        exact absurd hpo (by simp)
      | some res =>
        cases res with
        | error e =>
          have hout : itemOutcome env dir hd = some .failed := by
            simp [itemOutcome, hpm]
          have hacc : acc1 = acc := by
            simp only [processOne, hpm, Option.some.injEq] at hpo
            exact hpo.symm
          subst hacc
          refine ⟨?_, ?_, ?_, ?_⟩
          · rw [countOutcome_cons, hout]; simp at ihp ⊢; omega
          · rw [countOutcome_cons, hout]; simp at ihs ⊢; omega
          · rw [countOutcome_cons, hout]; simp at ihe ⊢; omega
          · intro m hm
            rcases List.mem_cons.mp hm with rfl | hmt
            · rw [hout]; exact fun hc => Option.noConfusion hc
            · exact ihm m hmt
        | ok files =>
          cases files with
          | none =>
            have hout : itemOutcome env dir hd = some .skippedOut := by
              simp [itemOutcome, hpm]
            have hacc : acc1 = { acc with skipped := acc.skipped + 1 } := by
              simp only [processOne, hpm, Option.some.injEq] at hpo
              exact hpo.symm
            subst hacc
            refine ⟨?_, ?_, ?_, ?_⟩
            · rw [countOutcome_cons, hout]; simp at ihp ⊢; omega
            · rw [countOutcome_cons, hout]; simp at ihs ⊢; omega
            · rw [countOutcome_cons, hout]; simp at ihe ⊢; omega
            · intro m hm
              rcases List.mem_cons.mp hm with rfl | hmt
              · rw [hout]; exact fun hc => Option.noConfusion hc
              · exact ihm m hmt
          | some fs =>
            have hout : itemOutcome env dir hd = some .processedOut := by
              simp [itemOutcome, hpm]
            have hacc : acc1 = { acc with
                entries := acc.entries ++ [⟨hd.id, hd.timestamp, buildVersionMap fs⟩],
                processed := acc.processed + 1 } := by
              simp only [processOne, hpm, Option.some.injEq] at hpo
              exact hpo.symm
            subst hacc
            refine ⟨?_, ?_, ?_, ?_⟩
            · rw [countOutcome_cons, hout]; simp at ihp ⊢; omega
            · rw [countOutcome_cons, hout]; simp at ihs ⊢; omega
            · rw [countOutcome_cons, hout]; simp at ihe ⊢; omega
            · intro m hm
              rcases List.mem_cons.mp hm with rfl | hmt
              · rw [hout]; exact fun hc => Option.noConfusion hc
              · exact ihm m hmt

theorem countOutcome_partition (env : Env) (dir : String) :
    ∀ (items : List Media), (∀ m ∈ items, itemOutcome env dir m ≠ none) →
      countOutcome env dir items .processedOut + countOutcome env dir items .skippedOut
        + countOutcome env dir items .failed = items.length := by
  intro items
  induction items with
  | nil => intro _; simp [countOutcome]
  | cons hd tl ih =>
    intro hall
    have htl := ih fun m hm => hall m (List.mem_cons_of_mem hd hm)
    have hhd := hall hd (List.mem_cons_self hd tl)
    rw [countOutcome_cons, countOutcome_cons, countOutcome_cons]
    cases ho : itemOutcome env dir hd with
    | none => exact absurd ho hhd
    | some o => cases o <;> simp [ho] <;> omega

/-- C5: in a completed run every item reports exactly one of the outcomes
Processed, Skipped or Failed, the three outcome counts partition the batch,
the processed and skipped counters equal their outcome counts, and the
manifest holds exactly one entry per Processed item. -/
theorem c5_outcome_partition (env : Env) (items : List Media) (dir outDir : String)
    (r : BatchResult)
    (hrun : FetchAndTransformMedia env items dir outDir = some (.ok r)) :
    (∀ m ∈ items, ∃ o, itemOutcome env dir m = some o)
    ∧ r.processed = countOutcome env dir items .processedOut
    ∧ r.skipped = countOutcome env dir items .skippedOut
    ∧ r.processed + r.skipped + countOutcome env dir items .failed = items.length
    ∧ r.entries.length = r.processed := by
  cases hmk : env.mkdirAll dir with
  | error e =>
    simp only [FetchAndTransformMedia, hmk] at hrun
    exact absurd (Option.some.inj hrun) (fun hh => Except.noConfusion hh)
  | ok u =>
    simp only [FetchAndTransformMedia, hmk] at hrun
    cases hri : runItems env dir items with
    | none => simp only [hri] at hrun; exact Option.noConfusion hrun
    | some r0 =>
      simp only [hri, Option.some.injEq, Except.ok.injEq] at hrun
      rw [runItems] at hri
      obtain ⟨hp, hs, he, hm⟩ := runItems_invariant env dir items ⟨[], 0, 0⟩ r0 hri
      have hre : r.entries = sortEntries env r0.entries := by rw [← hrun]
      have hrp : r.processed = r0.processed := by rw [← hrun]
      have hrs : r.skipped = r0.skipped := by rw [← hrun]
      have hlen : r.entries.length = r0.entries.length := by
        rw [hre, sortEntries]
        exact (goSortSlice_perm (tsLess env) r0.entries).length_eq
      refine ⟨?_, ?_, ?_, ?_, ?_⟩
      · intro m hmem
        rcases hx : itemOutcome env dir m with _ | o
        · exact absurd hx (hm m hmem)
        · exact ⟨o, rfl⟩
      · rw [hrp, hp]; simp
      · rw [hrs, hs]; simp
      · rw [hrp, hrs, hp, hs]
        simpa using countOutcome_partition env dir items hm
      · rw [hlen, he, hrp, hp]; simp

/-- Witness for C5 at a concrete three-item batch with one processed, one
skipped and one failed item. -/
theorem c5_outcome_partition_witness :
    rC5.processed + rC5.skipped + countOutcome okEnv "md" itemsC5 Outcome.failed
      = itemsC5.length :=
  (c5_outcome_partition okEnv itemsC5 "md" "od" rC5 (by decide)).2.2.2.1

/-! ### C1: what the manifest sort does and does not guarantee -/

theorem tsLess_asymm (env : Env) :
    ∀ a b, tsLess env a b = true → tsLess env b a = false := by
  intro a b h
  rcases ha : env.parseTS a.timestamp with _ | ka
  · simp only [tsLess, ha] at h
    exact absurd h (by decide)
  · rcases hb : env.parseTS b.timestamp with _ | kb
    · simp only [tsLess, ha, hb] at h
      exact absurd h (by decide)
    · simp only [tsLess, ha, hb, decide_eq_true_eq] at h
      simp only [tsLess, hb, ha, decide_eq_false_iff_not]
      omega

theorem tsLess_trans_parse (env : Env) (a b c : MediaFileEntry) (ka kb kc : Int)
    (hka : env.parseTS a.timestamp = some ka)
    (hkb : env.parseTS b.timestamp = some kb)
    (hkc : env.parseTS c.timestamp = some kc)
    (h1 : tsLess env b a = false) (h2 : tsLess env c b = false) :
    tsLess env c a = false := by
  simp only [tsLess, hka, hkb, hkc, decide_eq_false_iff_not] at h1 h2 ⊢
  omega

theorem chain_pairwise_of_parse (env : Env) :
    ∀ l : List MediaFileEntry,
      (∀ e ∈ l, (env.parseTS e.timestamp).isSome = true) →
      List.Chain' (fun a b => tsLess env b a = false) l →
      List.Pairwise (fun a b => tsLess env b a = false) l := by
  intro l
  induction l with
  | nil => intro _ _; exact List.Pairwise.nil
  | cons a t ih =>
    intro hall hch
    rcases t with _ | ⟨b, t2⟩
    · exact List.pairwise_singleton _ a
    · have hch1 : tsLess env b a = false := (List.chain'_cons.mp hch).1
      have hch2 := (List.chain'_cons.mp hch).2
      have htl : ∀ e ∈ b :: t2, (env.parseTS e.timestamp).isSome = true :=
        fun e he => hall e (List.mem_cons_of_mem a he)
      have hp := ih htl hch2
      rw [List.pairwise_cons]
      refine ⟨?_, hp⟩
      intro c hc
      obtain ⟨ka, hka⟩ := Option.isSome_iff_exists.mp (hall a (List.mem_cons_self a _))
      obtain ⟨kb, hkb⟩ := Option.isSome_iff_exists.mp (htl b (List.mem_cons_self b _))
      rcases List.mem_cons.mp hc with rfl | hc2
      · exact hch1
      · have hbc : tsLess env c b = false := (List.pairwise_cons.mp hp).1 c hc2
        obtain ⟨kc, hkc⟩ :=
          Option.isSome_iff_exists.mp (htl c (List.mem_cons_of_mem b hc2))
        exact tsLess_trans_parse env a b c ka kb kc hka hkb hkc hch1 hbc

/-- C1 counterexample: the manifest comparator (src/mediaconversion.go lines
314-327) returns false whenever either timestamp fails to parse, so the sort
never moves an unparsable entry behind valid ones: in this completed
three-item run the first manifest entry has an unparsable timestamp and both
valid-timestamp entries appear after it, violating the claimed placement. -/
theorem c1_unparsable_not_after_valid :
    FetchAndTransformMedia okEnv itemsC1x "md" "od" = some (.ok rC1x)
    ∧ okEnv.parseTS ((rC1x.entries.get ⟨0, by decide⟩).timestamp) = none
    ∧ okEnv.parseTS ((rC1x.entries.get ⟨1, by decide⟩).timestamp) = some 2
    ∧ okEnv.parseTS ((rC1x.entries.get ⟨2, by decide⟩).timestamp) = some 1 :=
  ⟨by decide, by decide, by decide, by decide⟩

/-- C1 amended: the coordinator hands the collected entries to sort.Slice
with a comparator that returns false whenever either timestamp fails to
parse; that comparator is not a strict weak ordering, so the sort guarantees
only that the final manifest is a permutation of the collected entries (the
counters untouched) in which no adjacent pair is inverted under the
comparator, and that the manifest is sorted by timestamp descending when
every entry's timestamp parses.  Entries with unparsable timestamps are not
placed after the valid ones. -/
theorem c1_amended_sort_guarantees (env : Env) (items : List Media)
    (dir outDir : String) (r : BatchResult)
    (hrun : FetchAndTransformMedia env items dir outDir = some (.ok r)) :
    (∃ r0, runItems env dir items = some r0 ∧ r.entries.Perm r0.entries
      ∧ r.processed = r0.processed ∧ r.skipped = r0.skipped)
    ∧ List.Chain' (fun a b => tsLess env b a = false) r.entries
    ∧ ((∀ e ∈ r.entries, (env.parseTS e.timestamp).isSome = true) →
        ∀ (i j : Fin r.entries.length), i < j →
          ∀ ti tj : Int, env.parseTS ((r.entries.get i).timestamp) = some ti →
            env.parseTS ((r.entries.get j).timestamp) = some tj → tj ≤ ti) := by
  cases hmk : env.mkdirAll dir with
  | error e =>
    simp only [FetchAndTransformMedia, hmk] at hrun
    exact absurd (Option.some.inj hrun) (fun hh => Except.noConfusion hh)
  | ok u =>
    simp only [FetchAndTransformMedia, hmk] at hrun
    cases hri : runItems env dir items with
    | none => simp only [hri] at hrun; exact Option.noConfusion hrun
    | some r0 =>
      simp only [hri, Option.some.injEq, Except.ok.injEq] at hrun
      have hre : r.entries = sortEntries env r0.entries := by rw [← hrun]
      have hrp : r.processed = r0.processed := by rw [← hrun]
      have hrs : r.skipped = r0.skipped := by rw [← hrun]
      have hperm : r.entries.Perm r0.entries := by
        rw [hre, sortEntries]
        exact goSortSlice_perm (tsLess env) r0.entries
      have hchain : List.Chain' (fun a b => tsLess env b a = false) r.entries := by
        rw [hre, sortEntries]
        exact goSortSlice_chain (tsLess env) (tsLess_asymm env) r0.entries
      refine ⟨⟨r0, rfl, hperm, hrp, hrs⟩, hchain, ?_⟩
      intro hall i j hij ti tj hi hj
      have hpw := chain_pairwise_of_parse env r.entries hall hchain
      have hle := List.pairwise_iff_get.mp hpw i j hij
      simp only [tsLess, hj, hi, decide_eq_false_iff_not] at hle
      omega

/-- Witness for C1 amended at the concrete three-item run: the final
manifest has no adjacent inversion under the comparator. -/
theorem c1_amended_sort_guarantees_witness :
    List.Chain' (fun a b => tsLess okEnv b a = false) rC1x.entries :=
  (c1_amended_sort_guarantees okEnv itemsC1x "md" "od" rC1x (by decide)).2.1

/-! ### C3: one failing variant fails the whole item -/

theorem processSizes_fails (env : Env) (p : String) :
    ∀ (sizes : List SizeSpec) (acc : List MediaFileVersionEntry),
      (∃ s ∈ sizes, (ResizeByWidthWebP env p s.width 0).error.isSome) →
      ∃ msg, processSizes env p sizes acc = .error (.resizeFail msg) := by
  intro sizes
  induction sizes with
  | nil => rintro acc ⟨s, hs, _⟩; cases hs
  | cons hd tl ih =>
    rintro acc ⟨s, hs, hfail⟩
    cases herr : (ResizeByWidthWebP env p hd.width 0).error with
    | some msg =>
      refine ⟨"failed to resize and convert to WebP: " ++ msg, ?_⟩
      simp only [processSizes, herr]
    | none =>
      rcases List.mem_cons.mp hs with rfl | htl
      · rw [herr] at hfail; exact absurd hfail (by simp)
      · obtain ⟨msg, hmsg⟩ := ih _ ⟨s, htl, hfail⟩
        exact ⟨msg, by simp only [processSizes, herr]; exact hmsg⟩

/-- C3: if the resize/encode of any configured variant of an item fails, the
whole item fails: ProcessMedia reports an error (a resize/encode error when
download and decode succeeded), never a produced file list, so no manifest
entry with a partial set of variants is published, and the batch aggregate is
left unchanged by the item. -/
theorem c3_variant_failure_fails_item (env : Env) (media : Media)
    (dir url fileExt : String) (acc : BatchResult)
    (hsel : selectUrl media = some url)
    (hmp4 : goContains url ".mp4" = false)
    (hext : goSliceFrom url (goLastIndexDot url) = some fileExt)
    (hfail : ∃ s ∈ imageWidths,
        (ResizeByWidthWebP env (pathJoin dir (media.id ++ fileExt)) s.width 0).error.isSome) :
    (∃ e, ProcessMedia env media dir = some (.error e))
    ∧ (∀ files, ProcessMedia env media dir ≠ some (.ok (some files)))
    ∧ processOne env dir acc media = some acc
    ∧ (env.mkdirAll dir = .ok () →
        env.download url (pathJoin dir (media.id ++ fileExt)) = .ok () →
        (∃ w h, env.openImage (pathJoin dir (media.id ++ fileExt)) = .ok (w, h)) →
        ∃ msg, ProcessMedia env media dir = some (.error (.resizeFail msg))) := by
  have hcond : ¬goContains url ".mp4" = true := by
    rw [hmp4]; exact Bool.false_ne_true
  have key : ∃ e, ProcessImage env url media.id dir = some (.error e) := by
    cases hm : env.mkdirAll dir with
    | error s => exact ⟨.mkdirFail s, by simp only [ProcessImage, hext, hm]⟩
    | ok u =>
      cases u
      cases hd2 : env.download url (pathJoin dir (media.id ++ fileExt)) with
      | error s =>
        exact ⟨.downloadFail ("download failed: " ++ s),
          by simp only [ProcessImage, hext, hm, hd2]⟩
      | ok u2 =>
        cases u2
        cases ho : env.openImage (pathJoin dir (media.id ++ fileExt)) with
        | error s =>
          exact ⟨.dimsFail ("failed to open image: " ++ s),
            by simp only [ProcessImage, hext, hm, hd2, ho]⟩
        | ok dims =>
          obtain ⟨msg, hmsg⟩ := processSizes_fails env _ imageWidths
            [⟨media.id ++ fileExt, dims.1, dims.2⟩] hfail
          refine ⟨.resizeFail msg, ?_⟩
          simp only [ProcessImage, hext, hm, hd2, ho, hmsg]
  obtain ⟨e, he⟩ := key
  have hpm : ProcessMedia env media dir = some (.error e) := by
    simp only [ProcessMedia, hsel, if_neg hcond, he]
  refine ⟨⟨e, hpm⟩, ?_, by simp only [processOne, hpm], ?_⟩
  · intro files hcontra
    rw [hpm] at hcontra
    exact Except.noConfusion (Option.some.inj hcontra)
  · rintro hmk hdl ⟨w, h, ho⟩
    obtain ⟨msg, hmsg⟩ := processSizes_fails env (pathJoin dir (media.id ++ fileExt))
      imageWidths [⟨media.id ++ fileExt, w, h⟩] hfail
    refine ⟨msg, ?_⟩
    simp only [ProcessMedia, hsel, if_neg hcond, ProcessImage, hext, hmk, hdl, ho, hmsg]

/-- Witness for C3: with a failing WebP encoder configuration, the concrete
image item fails and leaves the aggregate unchanged. -/
theorem c3_variant_failure_fails_item_witness :
    processOne encFailEnv "md" accEx mImg = some accEx :=
  (c3_variant_failure_fails_item encFailEnv mImg "md" "http://h/a.jpg" ".jpg" accEx
    (by decide) (by decide) (by decide) (by decide)).2.2.1

/-! ### C2: the concurrency cap -/

theorem countRunning_append (a b : List ItemPhase) :
    countRunning (a ++ b) = countRunning a + countRunning b := by
  simp [countRunning, List.countP_append]

theorem countRunning_replicate_pending (n : Nat) :
    countRunning (List.replicate n ItemPhase.pending) = 0 := by
  induction n with
  | zero => rfl
  | succ k ih => simpa [List.replicate_succ, countRunning, List.countP_cons] using ih

/-- C2 counterexample: the channel-based coordinator of
src/mediaconversion.go launches every item's goroutine with no admission
control, so from a two-item batch a state with two items simultaneously
mid-processing is reachable, exceeding a concurrency cap of one. -/
theorem c2_no_cap_counterexample :
    UnboundedReach [ItemPhase.pending, ItemPhase.pending]
        [ItemPhase.running, ItemPhase.running]
    ∧ 1 < countRunning [ItemPhase.running, ItemPhase.running] := by
  constructor
  · exact UnboundedReach.step
      (UnboundedReach.step (UnboundedReach.refl _)
        (UnboundedStep.start [] [ItemPhase.pending]))
      (UnboundedStep.start [ItemPhase.running] [])
  · decide

/-- C2 amended: only the semaphore-based coordinator draft of
src/mediacoversion.go bounds concurrency: in every schedule state reachable
from an all-pending batch, at most maxConcurrentMedia (= 3) items are
mid-processing. -/
theorem c2_amended_semaphore_bound (n : Nat) (s : List ItemPhase)
    (h : BoundedReach (List.replicate n ItemPhase.pending) s) :
    countRunning s ≤ maxConcurrentMedia := by
  induction h with
  | refl =>
    rw [countRunning_replicate_pending]
    exact Nat.zero_le _
  | step hreach hstep ih =>
    cases hstep with
    | start pre post hlt =>
      rw [countRunning_append] at hlt ⊢
      simp only [countRunning, List.countP_cons] at hlt ⊢
      simp at hlt ⊢
      omega
    | finish pre post =>
      rw [countRunning_append] at ih ⊢
      simp only [countRunning, List.countP_cons] at ih ⊢
      simp at ih ⊢
      omega

/-- Witness for C2 amended: the initial all-pending state of a two-item batch
respects the bound. -/
theorem c2_amended_semaphore_bound_witness :
    countRunning (List.replicate 2 ItemPhase.pending) ≤ maxConcurrentMedia :=
  c2_amended_semaphore_bound 2 (List.replicate 2 ItemPhase.pending)
    (BoundedReach.refl (List.replicate 2 ItemPhase.pending))

/-! ### C9: what the versions mapping holds -/

theorem processSizes_ok_shape (env : Env) (p : String) :
    ∀ (sizes : List SizeSpec) (acc files : List MediaFileVersionEntry),
      processSizes env p sizes acc = .ok files →
      files = acc ++ sizes.map (fun s =>
        ⟨(ResizeByWidthWebP env p s.width 0).fileName, s.width,
         (ResizeByWidthWebP env p s.width 0).height⟩) := by
  intro sizes
  induction sizes with
  | nil =>
    intro acc files h
    simp only [processSizes, Except.ok.injEq] at h
    simp [h]
  | cons hd tl ih =>
    intro acc files h
    simp only [processSizes] at h
    cases herr : (ResizeByWidthWebP env p hd.width 0).error with
    | some msg => simp only [herr] at h; exact Except.noConfusion h
    | none =>
      simp only [herr] at h
      have hrec := ih _ _ h
      simp [hrec, List.map_cons]

theorem processImage_ok_shape (env : Env) (url id dir : String)
    (files : List MediaFileVersionEntry)
    (h : ProcessImage env url id dir = some (.ok files)) :
    ∃ fileExt w0 h0,
      goSliceFrom url (goLastIndexDot url) = some fileExt
      ∧ env.openImage (pathJoin dir (id ++ fileExt)) = .ok (w0, h0)
      ∧ files = ⟨id ++ fileExt, w0, h0⟩ :: imageWidths.map (fun s =>
          ⟨(ResizeByWidthWebP env (pathJoin dir (id ++ fileExt)) s.width 0).fileName, s.width,
           (ResizeByWidthWebP env (pathJoin dir (id ++ fileExt)) s.width 0).height⟩) := by
  cases hs : goSliceFrom url (goLastIndexDot url) with
  | none => simp only [ProcessImage, hs] at h; exact Option.noConfusion h
  | some fe =>
    simp only [ProcessImage, hs, Option.some.injEq] at h
    cases hm : env.mkdirAll dir with
    | error s => simp only [hm] at h; exact Except.noConfusion h
    | ok u =>
      simp only [hm] at h
      cases hd2 : env.download url (pathJoin dir (id ++ fe)) with
      | error s => simp only [hd2] at h; exact Except.noConfusion h
      | ok u2 =>
        simp only [hd2] at h
        cases ho : env.openImage (pathJoin dir (id ++ fe)) with
        | error s => simp only [ho] at h; exact Except.noConfusion h
        | ok dims =>
          simp only [ho] at h
          have hrec := processSizes_ok_shape env _ imageWidths _ _ h
          exact ⟨fe, dims.1, dims.2, rfl, by rw [ho], by simpa using hrec⟩

set_option maxHeartbeats 1000000 in
theorem buildVersionMap_shape (o : MediaFileVersionEntry) (fa fb fc fd : String)
    (ha hb hc hd : Nat) :
    (∀ s ∈ imageWidths,
      (buildVersionMap [o, ⟨fa, 1200, ha⟩, ⟨fb, 800, hb⟩, ⟨fc, 400, hc⟩,
          ⟨fd, 160, hd⟩]).lookup s.name =
        some (if s.width = 1200 then ⟨fa, 1200, ha⟩ else if s.width = 800 then ⟨fb, 800, hb⟩
              else if s.width = 400 then ⟨fc, 400, hc⟩ else ⟨fd, 160, hd⟩))
    ∧ (∀ p ∈ buildVersionMap [o, ⟨fa, 1200, ha⟩, ⟨fb, 800, hb⟩, ⟨fc, 400, hc⟩, ⟨fd, 160, hd⟩],
        p = ("large", ⟨fa, 1200, ha⟩) ∨ p = ("medium", ⟨fb, 800, hb⟩)
        ∨ p = ("thumb", ⟨fc, 400, hc⟩) ∨ p = ("small", ⟨fd, 160, hd⟩)) := by
  rcases o with ⟨fo, wo, ho2⟩
  have e1 : findSizeName 1200 = some "large" := rfl
  have e2 : findSizeName 800 = some "medium" := rfl
  have e3 : findSizeName 400 = some "thumb" := rfl
  have e4 : findSizeName 160 = some "small" := rfl
  by_cases h1 : wo = 1200
  · subst h1
    constructor
    · intro s hs
      simp only [imageWidths] at hs
      fin_cases hs <;> simp +decide [buildVersionMap, upsert, e1, e2, e3, e4, List.lookup]
    · intro p hp
      simp +decide [buildVersionMap, upsert, e1, e2, e3, e4] at hp
      tauto
  · by_cases h2 : wo = 800
    · subst h2
      constructor
      · intro s hs
        simp only [imageWidths] at hs
        fin_cases hs <;> simp +decide [buildVersionMap, upsert, e1, e2, e3, e4, List.lookup]
      · intro p hp
        simp +decide [buildVersionMap, upsert, e1, e2, e3, e4] at hp
        tauto
    · by_cases h3 : wo = 400
      · subst h3
        constructor
        · intro s hs
          simp only [imageWidths] at hs
          fin_cases hs <;> simp +decide [buildVersionMap, upsert, e1, e2, e3, e4, List.lookup]
        · intro p hp
          simp +decide [buildVersionMap, upsert, e1, e2, e3, e4] at hp
          tauto
      · by_cases h4 : wo = 160
        · subst h4
          constructor
          · intro s hs
            simp only [imageWidths] at hs
            fin_cases hs <;> simp +decide [buildVersionMap, upsert, e1, e2, e3, e4, List.lookup]
          · intro p hp
            simp +decide [buildVersionMap, upsert, e1, e2, e3, e4] at hp
            tauto
        · have b1 : ((1200 : Nat) == wo) = false :=
            beq_eq_false_iff_ne.mpr (fun hh => h1 hh.symm)
          have b2 : ((800 : Nat) == wo) = false :=
            beq_eq_false_iff_ne.mpr (fun hh => h2 hh.symm)
          have b3 : ((400 : Nat) == wo) = false :=
            beq_eq_false_iff_ne.mpr (fun hh => h3 hh.symm)
          have b4 : ((160 : Nat) == wo) = false :=
            beq_eq_false_iff_ne.mpr (fun hh => h4 hh.symm)
          have e0 : findSizeName wo = none := by
            simp [findSizeName, imageWidths, List.find?, b1, b2, b3, b4]
          constructor
          · intro s hs
            simp only [imageWidths] at hs
            fin_cases hs <;> simp +decide [buildVersionMap, upsert, e0, e1, e2, e3, e4, List.lookup]
          · intro p hp
            simp +decide [buildVersionMap, upsert, e0, e1, e2, e3, e4] at hp
            tauto

/-- C9 counterexample: with the original decoding at width 400 (the thumb
variant's configured width), the final versions mapping binds thumb to the
variant file, not to the original's record: the original does not replace the
variant's entry — the variant, appended after the original, overwrites it. -/
theorem c9_original_does_not_replace_variant :
    ProcessMedia env400 mImg "md" = some (.ok (some filesEx))
    ∧ filesEx.head? = some ⟨"mi.jpg", 400, 300⟩
    ∧ (buildVersionMap filesEx).lookup "thumb" = some ⟨"mi_400x300.webp", 400, 300⟩
    ∧ (buildVersionMap filesEx).lookup "thumb" ≠ some ⟨"mi.jpg", 400, 300⟩ :=
  ⟨by decide, by decide, by decide, by decide⟩

/-- C9 amended: for every successfully processed item the versions mapping
holds exactly the four configured variants under their size names; the
downloaded original's record never survives as a binding: when its width
matches no configured width it is dropped, and when it coincides with a
configured width the variant entry, written after it, overwrites it. -/
theorem c9_version_map_holds_only_variants (env : Env) (url id dir : String)
    (files : List MediaFileVersionEntry)
    (hok : ProcessImage env url id dir = some (.ok files)) :
    ∃ fileExt w0 h0,
      goSliceFrom url (goLastIndexDot url) = some fileExt
      ∧ files.head? = some ⟨id ++ fileExt, w0, h0⟩
      ∧ (∀ s ∈ imageWidths, (buildVersionMap files).lookup s.name =
          some ⟨(ResizeByWidthWebP env (pathJoin dir (id ++ fileExt)) s.width 0).fileName,
                s.width,
                (ResizeByWidthWebP env (pathJoin dir (id ++ fileExt)) s.width 0).height⟩)
      ∧ (∀ p ∈ buildVersionMap files, ∃ s ∈ imageWidths,
          p = (s.name,
            ⟨(ResizeByWidthWebP env (pathJoin dir (id ++ fileExt)) s.width 0).fileName,
             s.width,
             (ResizeByWidthWebP env (pathJoin dir (id ++ fileExt)) s.width 0).height⟩)) := by
  obtain ⟨fe, w0, h0, hfe, ho, hfiles⟩ := processImage_ok_shape env url id dir files hok
  have hfiles2 : files =
      [⟨id ++ fe, w0, h0⟩,
       ⟨(ResizeByWidthWebP env (pathJoin dir (id ++ fe)) 1200 0).fileName, 1200,
        (ResizeByWidthWebP env (pathJoin dir (id ++ fe)) 1200 0).height⟩,
       ⟨(ResizeByWidthWebP env (pathJoin dir (id ++ fe)) 800 0).fileName, 800,
        (ResizeByWidthWebP env (pathJoin dir (id ++ fe)) 800 0).height⟩,
       ⟨(ResizeByWidthWebP env (pathJoin dir (id ++ fe)) 400 0).fileName, 400,
        (ResizeByWidthWebP env (pathJoin dir (id ++ fe)) 400 0).height⟩,
       ⟨(ResizeByWidthWebP env (pathJoin dir (id ++ fe)) 160 0).fileName, 160,
        (ResizeByWidthWebP env (pathJoin dir (id ++ fe)) 160 0).height⟩] := by
    rw [hfiles]; rfl
  have hmap := buildVersionMap_shape ⟨id ++ fe, w0, h0⟩
      (ResizeByWidthWebP env (pathJoin dir (id ++ fe)) 1200 0).fileName
      (ResizeByWidthWebP env (pathJoin dir (id ++ fe)) 800 0).fileName
      (ResizeByWidthWebP env (pathJoin dir (id ++ fe)) 400 0).fileName
      (ResizeByWidthWebP env (pathJoin dir (id ++ fe)) 160 0).fileName
      (ResizeByWidthWebP env (pathJoin dir (id ++ fe)) 1200 0).height
      (ResizeByWidthWebP env (pathJoin dir (id ++ fe)) 800 0).height
      (ResizeByWidthWebP env (pathJoin dir (id ++ fe)) 400 0).height
      (ResizeByWidthWebP env (pathJoin dir (id ++ fe)) 160 0).height
  refine ⟨fe, w0, h0, hfe, by rw [hfiles2]; rfl, ?_, ?_⟩
  · intro s hs
    rw [hfiles2]
    have hs2 := hs
    simp only [imageWidths] at hs2
    fin_cases hs2
    · simpa using hmap.1 ⟨1200, "large"⟩ (by decide)
    · simpa using hmap.1 ⟨800, "medium"⟩ (by decide)
    · simpa using hmap.1 ⟨400, "thumb"⟩ (by decide)
    · simpa using hmap.1 ⟨160, "small"⟩ (by decide)
  · intro p hp
    rw [hfiles2] at hp
    rcases hmap.2 p hp with hc | hc | hc | hc
    · exact ⟨⟨1200, "large"⟩, by decide, by rw [hc]⟩
    · exact ⟨⟨800, "medium"⟩, by decide, by rw [hc]⟩
    · exact ⟨⟨400, "thumb"⟩, by decide, by rw [hc]⟩
    · exact ⟨⟨160, "small"⟩, by decide, by rw [hc]⟩

/-- Witness for C9 amended: with env400 the thumb binding is the produced
400-wide variant file. -/
theorem c9_version_map_holds_only_variants_witness :
    (buildVersionMap filesEx).lookup "thumb" = some ⟨"mi_400x300.webp", 400, 300⟩ := by
  obtain ⟨fe, w0, h0, hfe, hhead, hlook, hmem⟩ :=
    c9_version_map_holds_only_variants env400 "http://h/a.jpg" "mi" "md" filesEx (by decide)
  have hfe2 : fe = ".jpg" := by
    have hgs : goSliceFrom "http://h/a.jpg" (goLastIndexDot "http://h/a.jpg")
        = some ".jpg" := by decide
    exact Option.some.inj (hfe.symm.trans hgs)
  subst hfe2
  exact (hlook ⟨400, "thumb"⟩ (by decide)).trans (by decide)

/-! ### C7: deterministic, collision-free variant filenames -/

theorem digitChar_isDigit (m : Nat) (h : m < 10) : (Nat.digitChar m).isDigit = true := by
  interval_cases m <;> decide

theorem toDigitsCore_isDigit (b : Nat) (hb : b = 10) :
    ∀ (fuel n : Nat) (ds : List Char), (∀ c ∈ ds, c.isDigit = true) →
      ∀ c ∈ Nat.toDigitsCore b fuel n ds, c.isDigit = true := by
  subst hb
  intro fuel
  induction fuel with
  | zero => intro n ds hds c hc; rw [Nat.toDigitsCore] at hc; exact hds c hc
  | succ f ih =>
    intro n ds hds c hc
    rw [Nat.toDigitsCore] at hc
    by_cases hz : n / 10 = 0
    · rw [if_pos hz] at hc
      rcases List.mem_cons.mp hc with rfl | hmem
      · exact digitChar_isDigit _ (Nat.mod_lt _ (by norm_num))
      · exact hds c hmem
    · rw [if_neg hz] at hc
      refine ih (n / 10) (Nat.digitChar (n % 10) :: ds) ?_ c hc
      intro x hx
      rcases List.mem_cons.mp hx with rfl | hmem
      · exact digitChar_isDigit _ (Nat.mod_lt _ (by norm_num))
      · exact hds x hmem

/-- Every character of the decimal rendering of a Nat (the embedding of Go's
%d formatting) is a digit. -/
theorem repr_isDigit (n : Nat) : ∀ c ∈ (Nat.repr n).data, c.isDigit = true := by
  intro c hc
  have hh : (Nat.repr n).data = Nat.toDigits 10 n := rfl
  rw [hh] at hc
  exact toDigitsCore_isDigit 10 rfl (n + 1) n [] (by intro x hx; cases hx) c hc

theorem isDigit_bne (c d : Char) (h : c.isDigit = true) (hd : d.isDigit = false) :
    (c != d) = true :=
  bne_iff_ne.mpr (fun hc => by subst hc; rw [h] at hd; exact Bool.noConfusion hd)

theorem takeWhile_append_stop {p : Char → Bool} :
    ∀ (l1 : List Char) (c0 : Char) (l2 : List Char),
      (∀ c ∈ l1, p c = true) → p c0 = false →
      (l1 ++ c0 :: l2).takeWhile p = l1 ∧ (l1 ++ c0 :: l2).dropWhile p = c0 :: l2 := by
  intro l1
  induction l1 with
  | nil =>
    intro c0 l2 h1 h0
    simp [List.takeWhile_cons, List.dropWhile_cons, h0]
  | cons a t ih =>
    intro c0 l2 h1 h0
    have ha : p a = true := h1 a (List.mem_cons_self a t)
    have ht := ih c0 l2 (fun c hc => h1 c (List.mem_cons_of_mem a hc)) h0
    simp [List.takeWhile_cons, List.dropWhile_cons, ha, ht.1, ht.2]

theorem variantFileName_data (id : String) (w k : Nat) :
    (variantFileName id w k).data
      = id.data ++ '_' :: ((Nat.repr w).data ++ 'x' :: ((Nat.repr k).data
          ++ ['.', 'w', 'e', 'b', 'p'])) := by
  have d1 : ("_" : String).data = ['_'] := rfl
  have d2 : ("x" : String).data = ['x'] := rfl
  have d3 : (".webp" : String).data = ['.', 'w', 'e', 'b', 'p'] := rfl
  simp [variantFileName, String.data_append, d1, d2, d3, List.append_assoc]

theorem variantFileName_inj (id1 id2 : String) (w1 w2 k1 k2 : Nat)
    (hw1 : w1 ∈ [1200, 800, 400, 160]) (hw2 : w2 ∈ [1200, 800, 400, 160])
    (heq : variantFileName id1 w1 k1 = variantFileName id2 w2 k2) :
    id1 = id2 ∧ w1 = w2 := by
  have hd := congrArg String.data heq
  rw [variantFileName_data, variantFileName_data] at hd
  have htail : ∀ (w k : Nat) (c : Char),
      c ∈ (Nat.repr w).data ++ 'x' :: ((Nat.repr k).data ++ ['.', 'w', 'e', 'b', 'p']) →
      (c != '_') = true := by
    intro w k c hc
    rcases List.mem_append.mp hc with hc1 | hc2
    · exact isDigit_bne c '_' (repr_isDigit w c hc1) rfl
    · rcases List.mem_cons.mp hc2 with rfl | hc3
      · decide
      · rcases List.mem_append.mp hc3 with hc4 | hc5
        · exact isDigit_bne c '_' (repr_isDigit k c hc4) rfl
        · fin_cases hc5 <;> decide
  have hrev := congrArg List.reverse hd
  simp only [List.reverse_append, List.reverse_cons, List.append_assoc,
    List.singleton_append] at hrev
  have hs1 := takeWhile_append_stop (p := fun c => c != '_')
      ((Nat.repr w1).data ++ 'x' :: ((Nat.repr k1).data ++ ['.', 'w', 'e', 'b', 'p'])).reverse
      '_' id1.data.reverse
      (fun c hc => htail w1 k1 c (List.mem_reverse.mp hc)) (by decide)
  have hs2 := takeWhile_append_stop (p := fun c => c != '_')
      ((Nat.repr w2).data ++ 'x' :: ((Nat.repr k2).data ++ ['.', 'w', 'e', 'b', 'p'])).reverse
      '_' id2.data.reverse
      (fun c hc => htail w2 k2 c (List.mem_reverse.mp hc)) (by decide)
  have htake : ((Nat.repr w1).data ++ 'x' :: ((Nat.repr k1).data
        ++ ['.', 'w', 'e', 'b', 'p'])).reverse
      = ((Nat.repr w2).data ++ 'x' :: ((Nat.repr k2).data
        ++ ['.', 'w', 'e', 'b', 'p'])).reverse := by
    have t1 := hs1.1
    have t2 := hs2.1
    simp only [List.reverse_append, List.reverse_cons, List.append_assoc,
      List.singleton_append] at t1 t2 ⊢
    rw [← t1, ← t2, hrev]
  have hdrop : '_' :: id1.data.reverse = '_' :: id2.data.reverse := by
    have t1 := hs1.2
    have t2 := hs2.2
    simp only [List.reverse_append, List.reverse_cons, List.append_assoc,
      List.singleton_append] at t1 t2
    rw [← t1, ← t2, hrev]
  have hid : id1 = id2 := by
    have h3 : id1.data.reverse = id2.data.reverse := ((List.cons.injEq _ _ _ _).mp hdrop).2
    have h4 : id1.data = id2.data := List.reverse_injective h3
    cases id1; cases id2; exact congrArg String.mk h4
  have htails : (Nat.repr w1).data ++ 'x' :: ((Nat.repr k1).data ++ ['.', 'w', 'e', 'b', 'p'])
      = (Nat.repr w2).data ++ 'x' :: ((Nat.repr k2).data ++ ['.', 'w', 'e', 'b', 'p']) :=
    List.reverse_injective htake
  have hx1 := takeWhile_append_stop (p := fun c => c != 'x')
      (Nat.repr w1).data 'x' ((Nat.repr k1).data ++ ['.', 'w', 'e', 'b', 'p'])
      (fun c hc => isDigit_bne c 'x' (repr_isDigit w1 c hc) rfl) (by decide)
  have hx2 := takeWhile_append_stop (p := fun c => c != 'x')
      (Nat.repr w2).data 'x' ((Nat.repr k2).data ++ ['.', 'w', 'e', 'b', 'p'])
      (fun c hc => isDigit_bne c 'x' (repr_isDigit w2 c hc) rfl) (by decide)
  have hrepr : (Nat.repr w1).data = (Nat.repr w2).data := by
    rw [← hx1.1, ← hx2.1, htails]
  refine ⟨hid, ?_⟩
  fin_cases hw1 <;> fin_cases hw2 <;> (try rfl) <;> (revert hrepr; decide)

theorem baseName_pathJoin (d b : String) (hb : ∀ c ∈ b.data, c ≠ '/') :
    baseName (pathJoin d b) = b := by
  have hdata : (pathJoin d b).data = d.data ++ '/' :: b.data := by
    have d1 : ("/" : String).data = ['/'] := rfl
    simp [pathJoin, String.data_append, d1]
  have hrev : (d.data ++ '/' :: b.data).reverse = b.data.reverse ++ '/' :: d.data.reverse := by
    simp [List.reverse_append]
  have hsplit := takeWhile_append_stop (p := fun c => c ≠ '/') b.data.reverse '/'
      d.data.reverse (fun c hc => decide_eq_true (hb c (List.mem_reverse.mp hc))) (by decide)
  unfold baseName
  rw [hdata, hrev, hsplit.1, List.reverse_reverse]

theorem extName_pathJoin (d id : String) (fr : List Char)
    (hid : ∀ c ∈ id.data, c ≠ '.')
    (hids : ∀ c ∈ id.data, c ≠ '/')
    (hfr : ∀ c ∈ fr, c ≠ '.' ∧ c ≠ '/') :
    extName (pathJoin d (id ++ String.mk ('.' :: fr))) = String.mk ('.' :: fr) := by
  have hbd : (id ++ String.mk ('.' :: fr)).data = id.data ++ '.' :: fr := by
    simp [String.data_append]
  have hbase : baseName (pathJoin d (id ++ String.mk ('.' :: fr))) = id ++ String.mk ('.' :: fr) := by
    apply baseName_pathJoin
    intro c hc
    rw [hbd] at hc
    rcases List.mem_append.mp hc with hc1 | hc2
    · exact hids c hc1
    · rcases List.mem_cons.mp hc2 with rfl | hc3
      · decide
      · exact (hfr c hc3).2
  unfold extName
  rw [hbase, hbd]
  have hcont : (id.data ++ '.' :: fr).contains '.' = true := by
    have : ('.' : Char) ∈ id.data ++ '.' :: fr := List.mem_append.mpr (Or.inr (List.mem_cons_self _ _))
    simpa [List.contains] using this
  rw [if_pos hcont]
  have hrev : (id.data ++ '.' :: fr).reverse = fr.reverse ++ '.' :: id.data.reverse := by
    simp [List.reverse_append]
  have hsplit := takeWhile_append_stop (p := fun c => c ≠ '.') fr.reverse '.'
      id.data.reverse (fun c hc => decide_eq_true ((hfr c (List.mem_reverse.mp hc)).1))
      (by decide)
  rw [hrev, hsplit.1, List.reverse_reverse]

theorem trimSuffix_append (id e : String) : trimSuffix (id ++ e) e = id := by
  have hbd : (id ++ e).data = id.data ++ e.data := by simp [String.data_append]
  have hsuf : e.data.isSuffixOf (id ++ e).data = true := by
    rw [hbd]
    exact List.isSuffixOf_iff_suffix.mpr (List.suffix_append id.data e.data)
  unfold trimSuffix
  rw [if_pos hsuf, hbd]
  have hlen : (id.data ++ e.data).length - e.data.length = id.data.length := by
    simp [List.length_append]
  rw [hlen, List.take_left]

/-- C7: (a) with a working codec and filesystem, the file a produced variant
is written under is deterministically id_WxH.webp, the media id followed by
the target width and the codec's derived height, a pure function of the item
and configuration; (b) these names never collide: equal names for configured
widths force equal media ids and equal widths. -/
theorem c7_deterministic_collision_free_names :
    (∀ (env : Env) (dir id : String) (fr : List Char) (w : Nat) (dims : Nat × Nat),
      (∀ c ∈ id.data, c ≠ '/' ∧ c ≠ '.') →
      (∀ c ∈ fr, c ≠ '/' ∧ c ≠ '.') →
      env.openImage (pathJoin dir (id ++ String.mk ('.' :: fr))) = .ok dims →
      (∀ p, env.createFile p = .ok ()) →
      env.encoderOptions = .ok () →
      (∀ p, env.encode p = .ok ()) →
      ResizeByWidthWebP env (pathJoin dir (id ++ String.mk ('.' :: fr))) w 0 =
        ⟨env.resizeDy dims w 0, variantFileName id w (env.resizeDy dims w 0), none⟩)
    ∧ (∀ (id1 id2 : String) (w1 w2 k1 k2 : Nat),
        w1 ∈ [1200, 800, 400, 160] → w2 ∈ [1200, 800, 400, 160] →
        variantFileName id1 w1 k1 = variantFileName id2 w2 k2 →
        id1 = id2 ∧ w1 = w2) := by
  constructor
  · intro env dir id fr w dims hid hfr ho hcf hopts henc
    have hbase : baseName (pathJoin dir (id ++ String.mk ('.' :: fr)))
        = id ++ String.mk ('.' :: fr) := by
      apply baseName_pathJoin
      intro c hc
      rw [show (id ++ String.mk ('.' :: fr)).data = id.data ++ '.' :: fr by
        simp [String.data_append]] at hc
      rcases List.mem_append.mp hc with hc1 | hc2
      · exact (hid c hc1).1
      · rcases List.mem_cons.mp hc2 with rfl | hc3
        · decide
        · exact (hfr c hc3).1
    have hext : extName (pathJoin dir (id ++ String.mk ('.' :: fr))) = String.mk ('.' :: fr) :=
      extName_pathJoin dir id fr (fun c hc => (hid c hc).2) (fun c hc => (hid c hc).1)
        (fun c hc => ⟨(hfr c hc).2, (hfr c hc).1⟩)
    have htrim : trimSuffix (id ++ String.mk ('.' :: fr)) (String.mk ('.' :: fr)) = id :=
      trimSuffix_append id (String.mk ('.' :: fr))
    simp only [ResizeByWidthWebP, ho, hbase, hext, htrim, hcf, hopts, henc, variantFileName]
    simp
  · exact variantFileName_inj

/-- Witness for C7: the concrete thumb-width resize of mi.jpg writes
mi_400x300.webp. -/
theorem c7_deterministic_collision_free_names_witness :
    ResizeByWidthWebP okEnv (pathJoin "md" ("mi" ++ String.mk ['.', 'j', 'p', 'g'])) 400 0 =
      ⟨300, variantFileName "mi" 400 300, none⟩ :=
  (c7_deterministic_collision_free_names.1 okEnv "md" "mi" ['j', 'p', 'g'] 400 (1000, 750)
    (by decide) (by decide) rfl (fun p => rfl) rfl (fun p => rfl)).trans (by decide)

end InstaRecents
